import Mathlib

/-!
Formal model of the `basalpay-p2p` payment/reconciliation core.

This development shallowly embeds the TypeScript sources:
  * `src/services/transaction-monitor.ts` — the reconciliation cycle
    (`checkTransactions`, `processUsdtTransfer`);
  * `src/bot.ts` — the cancel-payment action and the hourly expiry job
    (`setupExpiryJob`), via the `RedisHelper` operations of
    `src/utils/redis-helper`;
  * `src/services/bank.service.ts` — the date-range validation of
    `getTransactionsHistory` and the retry structure of `mbRequest`;
  * `src/scenes/p2p-payment.ts` (`generatePaymentInfo`) — the VND amount
    and memo computations;
  * `src/services/binance-service.ts` — the consecutive-failure counter of
    `setupTransactionMonitor`.

Modelling conventions: identifiers (payment ids, user ids, emails,
reference numbers) are opaque tokens compared only for equality and are
embedded as `Nat`; already-parsed integer amounts (`parseInt` results) are
`Int`; free-text descriptions and memos, on which substring search is
performed, are `List Char`; epoch-millisecond timestamps are `Int`.
External collaborators (the BasalPay settlement gateway, the bank API) are
deterministic oracles passed in explicitly.
-/

namespace BasalPay

/-- JS `String.prototype.includes` restricted to a needle tested at the
head position: `true` iff `needle` is a prefix of `hay`. -/
def isPrefixCh : List Char → List Char → Bool
  | [], _ => true
  | _ :: _, [] => false
  | a :: as, b :: bs => a == b && isPrefixCh as bs

/-- JS `hay.includes(needle)`: `needle` occurs contiguously in `hay`
(the empty needle occurs in every string). -/
def hasSubstr (needle : List Char) : List Char → Bool
  | [] => needle.isEmpty
  | c :: rest => isPrefixCh needle (c :: rest) || hasSubstr needle rest

/-- Status strings stored in the `status` field of a `payment:{id}` hash. -/
inductive PayStatus
  | pending
  | processing
  | completed
  | expired
  | canceled
  | manualReview
  deriving DecidableEq, Repr

/-- Terminal statuses: `completed`, `expired`, `canceled`, `manual_review`. -/
def isTerminal : PayStatus → Bool
  | .completed => true
  | .expired => true
  | .canceled => true
  | .manualReview => true
  | _ => false

/-- The `payment:{id}` hash, with the fields the modelled operations read
or write.  String-encoded numbers are embedded already parsed; optional
fields are absent (`none`) until the corresponding `hset` writes them. -/
structure PaymentRec where
  userId : Nat
  email : Option Nat
  amountUSDT : Nat
  amountVND : Int
  memo : List Char
  status : PayStatus
  createdAt : Int
  expiresAt : Int
  vndReceivedAt : Option Int := none
  transactionRef : Option Nat := none
  completedAt : Option Int := none
  expiredAt : Option Int := none
  canceledAt : Option Int := none
  lastUpdated : Option Int := none
  usdtTransactionId : Option Nat := none
  usdtTransactionStatus : Option Nat := none
  recipientUserId : Option Nat := none
  errorMsg : Option (List Char) := none
  deriving DecidableEq, Repr

/-- One entry of the unified transaction list produced by
`BankService.getTransactionsHistory`, with the fields the reconciliation
cycle reads.  `creditAmount` holds the `parseInt` value of the raw string
field; a raw field that is empty or unparsable is modelled as `0`, which
the credit filter discards exactly as the source's truthiness test does. -/
structure TransactionInfo where
  transactionDate : Int
  creditAmount : Int
  transactionDesc : List Char
  refNo : Nat
  deriving DecidableEq, Repr

/-- The shared ledger store: payment hashes, the `payments:pending` and
`payments:completed` sets, the `payments:expiry` sorted set (member with
score), and the `user:{id}:activePayment` strings. -/
structure Ledger where
  payments : Nat → Option PaymentRec
  pendingSet : List Nat
  completedSet : List Nat
  expirySet : List (Nat × Int)
  activePayment : Nat → Option Nat

/-- Model of `redis.hset` on a payment hash.  All modelled call
sites first check that the hash exists, so updating through `Option.map`
is faithful on every modelled path. -/
def hsetPayment (s : Ledger) (pid : Nat) (f : PaymentRec → PaymentRec) : Ledger :=
  { s with payments := fun k => if k = pid then (s.payments k).map f else s.payments k }

/-- Model of `redis.srem` on the `payments:pending` set. -/
def sremPending (s : Ledger) (pid : Nat) : Ledger :=
  { s with pendingSet := s.pendingSet.filter (fun k => k ≠ pid) }

/-- Model of `redis.sadd` on the `payments:completed` set. -/
def saddCompleted (s : Ledger) (pid : Nat) : Ledger :=
  { s with completedSet :=
      if pid ∈ s.completedSet then s.completedSet else pid :: s.completedSet }

/-- Model of `redis.zrem` on `payments:expiry` (`RedisHelper.removeFromExpirySet`). -/
def zremExpiry (s : Ledger) (pid : Nat) : Ledger :=
  { s with expirySet := s.expirySet.filter (fun e => e.1 ≠ pid) }

/-- External collaborators of the reconciliation cycle, as deterministic
oracles: `BasalPayService.getUserByEmail` and
`BasalPayService.transferUsdt`.  The transfer request sent by the source
is a function of the payment record alone, so the transfer oracle is
keyed by the payment id; `Except.error` models the request throwing, and
`Except.ok` carries the returned `data.id` and `data.status`. -/
structure SettlementEnv where
  userByEmail : Nat → Option Nat
  transferResult : Nat → Except (List Char) (Nat × Nat)

/-- The per-transaction matching test of `checkTransactions`
(`transaction-monitor.ts:94-101`): the free-text description is truthy
and contains the memo, and the parsed credit amount equals the payment's
`amountVND` exactly. -/
def txMatches (memo : List Char) (amountVND : Int) (tx : TransactionInfo) : Bool :=
  (!tx.transactionDesc.isEmpty && hasSubstr memo tx.transactionDesc)
    && (tx.creditAmount == amountVND)

/-- The credit filter of `checkTransactions`: keep transactions whose
(string-truthy, parsed) credit amount is positive. -/
def creditTransactions (txs : List TransactionInfo) : List TransactionInfo :=
  txs.filter (fun tx => decide (0 < tx.creditAmount))

/-- Model of `creditTransactions.find(...)` in `checkTransactions`: the first
filtered credit entry matching the payment's memo and amount. -/
def findMatching (memo : List Char) (amountVND : Int) (txs : List TransactionInfo) :
    Option TransactionInfo :=
  (creditTransactions txs).find? (txMatches memo amountVND)

/-- Model of `processUsdtTransfer` of `transaction-monitor.ts`: resolve the
recipient by email lookup (persisting a found id), throw if none was
found, then invoke the transfer.  The result is the new ledger, whether
`transferUsdt` was actually invoked, and `some msg` when the function
threw.  `p` is the `paymentData` snapshot the caller read. -/
def processUsdtTransfer (env : SettlementEnv) (time : Int) (pid : Nat)
    (p : PaymentRec) (s : Ledger) : Ledger × Bool × Option (List Char) :=
  match p.email with
  | none => (s, false, some "No recipient user ID specified for USDT transfer".data)
  | some e =>
    match env.userByEmail e with
    | none => (s, false, some "No recipient user ID specified for USDT transfer".data)
    | some uid =>
      let s1 := hsetPayment s pid (fun q => { q with recipientUserId := some uid })
      match env.transferResult pid with
      | .error msg => (s1, true, some msg)
      | .ok (tid, tstatus) =>
        let s2 := hsetPayment s1 pid (fun q =>
          { q with status := .completed, completedAt := some time,
                   usdtTransactionId := some tid, usdtTransactionStatus := some tstatus })
        (saddCompleted (sremPending s2 pid) pid, true, none)

/-- The body of the per-payment loop of `checkTransactions`
(`transaction-monitor.ts:83-209`): skip unless the stored status is
`pending`; find the first matching credit transaction; on a match record
`processing` with the matched reference, then either run
`processUsdtTransfer` (when no settlement id is stored, routing a thrown
error to `manual_review`) or complete directly.  Returns the new ledger
and whether the settlement transfer was invoked. -/
def processOnePayment (env : SettlementEnv) (txs : List TransactionInfo) (time : Int)
    (s : Ledger) (pid : Nat) : Ledger × Bool :=
  match s.payments pid with
  | none => (s, false)
  | some p =>
    if p.status ≠ .pending then (s, false)
    else
      match findMatching p.memo p.amountVND txs with
      | none => (s, false)
      | some tx =>
        let s1 := hsetPayment s pid (fun q =>
          { q with status := .processing, vndReceivedAt := some time,
                   transactionRef := some tx.refNo })
        if p.usdtTransactionId = none then
          let r := processUsdtTransfer env time pid p s1
          match r.2.2 with
          | none => (r.1, r.2.1)
          | some msg =>
            (hsetPayment r.1 pid (fun q =>
              { q with status := .manualReview, errorMsg := some msg }), r.2.1)
        else
          let s2 := hsetPayment s1 pid (fun q =>
            { q with status := .completed, completedAt := some time })
          (saddCompleted (sremPending s2 pid) pid, false)

/-- The pending-payment loop of `checkTransactions`: iterate
`processOnePayment` over the `payments:pending` snapshot, collecting the
ids for which the settlement transfer was invoked. -/
def checkTransactionsGo (env : SettlementEnv) (txs : List TransactionInfo) (time : Int) :
    List Nat → Ledger × List Nat → Ledger × List Nat
  | [], acc => acc
  | pid :: rest, (s, out) =>
    let r := processOnePayment env txs time s pid
    checkTransactionsGo env txs time rest (r.1, out ++ if r.2 then [pid] else [])

/-- One reconciliation cycle of `checkTransactions` over an
already-fetched transaction list: returns the new ledger and the list of
payment ids for which `transferUsdt` was invoked during the cycle. -/
def checkTransactions (env : SettlementEnv) (txs : List TransactionInfo) (time : Int)
    (s : Ledger) : Ledger × List Nat :=
  checkTransactionsGo env txs time s.pendingSet (s, [])

/-- The `cancel_payment_` action of `bot.ts` (`registerActions`,
lines 401-461): mutate only when the payment exists, belongs to the
requesting user, and is still `pending`; then mark it `canceled` with a
timestamp, remove it from the pending set, and delete the user's
`activePayment` pointer only when it references this payment. -/
def cancelPaymentAction (uid pid : Nat) (time : Int) (s : Ledger) : Ledger :=
  match s.payments pid with
  | none => s
  | some p =>
    if p.userId ≠ uid then s
    else if p.status ≠ .pending then s
    else
      let s1 := hsetPayment s pid (fun q =>
        { q with status := .canceled, canceledAt := some time })
      let s2 := sremPending s1 pid
      if s2.activePayment uid = some pid then
        { s2 with activePayment := fun u => if u = uid then none else s2.activePayment u }
      else s2

/-- Model of `RedisHelper.updatePaymentStatus pid "expired"`: writes the status,
the matching `{status}At` timestamp, and `lastUpdated`. -/
def updatePaymentStatusExpired (time : Int) (s : Ledger) (pid : Nat) : Ledger :=
  hsetPayment s pid (fun q =>
    { q with status := .expired, expiredAt := some time, lastUpdated := some time })

/-- Model of `RedisHelper.getExpiredPayments`: members of `payments:expiry` with
score in `[0, now]`. -/
def getExpiredPayments (now : Int) (s : Ledger) : List Nat :=
  (s.expirySet.filter (fun e => decide (0 ≤ e.2) && decide (e.2 ≤ now))).map (·.1)

/-- The body of the per-id loop of `setupExpiryJob` (`bot.ts:490-545`):
a missing record is only dropped from the expiry index; a still-`pending`
record is marked expired, removed from the pending set, and its user
notified; in every case the id is removed from the expiry index.  The
second component records whether a user notification was sent. -/
def expireOnePayment (now : Int) (s : Ledger) (pid : Nat) : Ledger × Bool :=
  match s.payments pid with
  | none => (zremExpiry s pid, false)
  | some p =>
    if p.status = .pending then
      let s1 := updatePaymentStatusExpired now s pid
      let s2 := sremPending s1 pid
      (zremExpiry s2 pid, true)
    else
      (zremExpiry s pid, false)

/-- Loop of the expiry job over the due ids, collecting the ids whose
users were notified. -/
def expirySweepGo (now : Int) : List Nat → Ledger × List Nat → Ledger × List Nat
  | [], acc => acc
  | pid :: rest, (s, out) =>
    let r := expireOnePayment now s pid
    expirySweepGo now rest (r.1, out ++ if r.2 then [pid] else [])

/-- One run of the hourly expiry job of `setupExpiryJob`: sweep every
entry of the expiry index whose score is at or before `now`. -/
def expirySweep (now : Int) (s : Ledger) : Ledger × List Nat :=
  expirySweepGo now (getExpiredPayments now s) (s, [])

/-- The ledger-mutating operations of the system, for stating properties
quantified over every operation. -/
inductive LedgerOp
  | cycle (env : SettlementEnv) (txs : List TransactionInfo) (time : Int)
  | sweep (now : Int)
  | cancel (uid pid : Nat) (time : Int)

/-- Apply one operation to the ledger. -/
def applyOp : LedgerOp → Ledger → Ledger
  | .cycle env txs time, s => (checkTransactions env txs time s).1
  | .sweep now, s => (expirySweep now s).1
  | .cancel uid pid time, s => cancelPaymentAction uid pid time s

/-! Date-range validation of `BankService.getTransactionsHistory`. -/

/-- Milliseconds per day. -/
def msPerDay : Int := 86400000

/-- Model of `a.diff(b, "days")` of moment.js on epoch-millisecond timestamps:
the millisecond difference divided by a day, truncated toward zero. -/
def momentDiffDays (a b : Int) : Int := Int.tdiv (a - b) msPerDay

/-- The validation of `getTransactionsHistory`
(`bank.service.ts:407-416`): `true` iff the request throws the
date-formatting error, i.e. `moment().diff(fromDate,"days") > 90`, or
`moment().diff(toDate,"days") > 90`, or `fromDate.diff(toDate,"days") > 90`. -/
def historyRangeRejected (now fromDate toDate : Int) : Bool :=
  (decide (90 < momentDiffDays now fromDate) || decide (90 < momentDiffDays now toDate))
    || decide (90 < momentDiffDays fromDate toDate)

/-- The validation as the spec states it (for comparison with
`historyRangeRejected`): either boundary more than 90 days from now in
either direction, or the boundaries more than 90 days apart in either
direction. -/
def specRangeRejected (now fromDate toDate : Int) : Prop :=
  90 < |momentDiffDays now fromDate| ∨ 90 < |momentDiffDays now toDate| ∨
    90 < |momentDiffDays fromDate toDate|

instance (now fromDate toDate : Int) : Decidable (specRangeRejected now fromDate toDate) := by
  unfold specRangeRejected; infer_instance

/-! Session-renewal structure of `BankService.mbRequest`. -/

/-- One bank-API response to an authenticated request, as classified by
`mbRequest` (`bank.service.ts:329-344`). -/
inductive MbResponse
  | malformed
  | ok
  | sessionExpired
  | failCode (c : Nat)
  deriving DecidableEq, Repr

/-- Outcome of `mbRequest` as observed by its caller. -/
inductive MbOutcome
  | payload
  | softFailure
  | thrown (c : Nat)
  | hung
  deriving DecidableEq, Repr

/-- The retry loop of `mbRequest`: each list entry is the response to one
POST of the same request.  On `GW200` the source calls `login()` and
recurses unconditionally.  Returns the outcome, the number of re-logins
performed inside the loop, and the number of POSTs issued; an exhausted
response script is reported as `hung`. -/
def mbRequestGo : List MbResponse → MbOutcome × Nat × Nat
  | [] => (.hung, 0, 0)
  | r :: rest =>
    match r with
    | .malformed => (.softFailure, 0, 1)
    | .ok => (.payload, 0, 1)
    | .sessionExpired =>
      let t := mbRequestGo rest
      (t.1, t.2.1 + 1, t.2.2 + 1)
    | .failCode c => (.thrown c, 0, 1)

/-- Model of `mbRequest` (`bank.service.ts:303-344`): an initial `login()` when no
session is held, then the retry loop.  Returns the outcome, the total
number of `login()` calls, and the number of POSTs of the request. -/
def mbRequest (hasSession : Bool) (responses : List MbResponse) : MbOutcome × Nat × Nat :=
  let t := mbRequestGo responses
  (t.1, (if hasSession then 0 else 1) + t.2.1, t.2.2)

/-! Amount and memo computations of `generatePaymentInfo` (`p2p-payment.ts`). -/

/-- The marked-up exchange rate of `generatePaymentInfo`
(`rate = binanceRate * (1 + markup / 100)`), over exact rationals. -/
def appliedRate (binanceRate markup : ℚ) : ℚ := binanceRate * (1 + markup / 100)

/-- Model of `amountVND = Math.ceil(amountUSDT * rate)` in `generatePaymentInfo`. -/
def computedAmountVND (amountUSDT rate : ℚ) : ℤ := ⌈amountUSDT * rate⌉

/-- Value of a hexadecimal digit, upper or lower case, as accepted by
JS `parseInt(..., 16)`. -/
def hexDigitVal : Char → Option Nat
  | c =>
    if '0' ≤ c ∧ c ≤ '9' then some (c.toNat - '0'.toNat)
    else if 'a' ≤ c ∧ c ≤ 'f' then some (c.toNat - 'a'.toNat + 10)
    else if 'A' ≤ c ∧ c ≤ 'F' then some (c.toNat - 'A'.toNat + 10)
    else none

/-- Fold a list of characters known to be hexadecimal digits into a
number; `none` when some character is not a hexadecimal digit.  Together
with `List.takeWhile` below this models `parseInt(s, 16)` on a string
whose leading characters are all valid. -/
def parseHexAll : List Char → Option Nat
  | [] => some 0
  | c :: rest =>
    match hexDigitVal c, parseHexAll rest with
    | some v, some acc => some (v * 16 ^ rest.length + acc)
    | _, _ => none

/-- Model of JS `parseInt(s, 16)`: parse the maximal valid leading run, `NaN`
(modelled `none`) when no leading character is a hexadecimal digit. -/
def parseIntHex (cs : List Char) : Option Nat :=
  let valid := cs.takeWhile (fun c => (hexDigitVal c).isSome)
  if valid.isEmpty then none else parseHexAll valid

/-- Decimal digit characters of a natural number, most significant first,
with structural fuel (`fuel` bounds the recursion depth; any
`fuel ≥ number of digits` gives the exact JS `Number.prototype.toString`
output). -/
def toDecAux : Nat → Nat → List Char
  | 0, _ => []
  | f + 1, n =>
    if n < 10 then [Nat.digitChar n]
    else toDecAux f (n / 10) ++ [Nat.digitChar (n % 10)]

/-- Model of JS `n.toString()` on a natural number. -/
def natToString (n : Nat) : List Char := toDecAux (n + 1) n

/-- Model of JS `s.padStart(len, c)`. -/
def padStart (l : List Char) (len : Nat) (c : Char) : List Char :=
  List.replicate (len - l.length) c ++ l

/-- The memo computation of `generatePaymentInfo`
(`p2p-payment.ts:318-321`): strip hyphens from the UUID, take the first 8
characters, parse them as hexadecimal, reduce modulo `10^8`, render in
decimal, and left-pad with `'0'` to length 8.  `none` models the `NaN`
case of `parseInt`, which cannot occur for a well-formed UUID. -/
def generatedMemo (paymentId : List Char) : Option (List Char) :=
  let numericPart := parseIntHex ((paymentId.filter (fun c => c ≠ '-')).take 8)
  numericPart.map (fun n => padStart (natToString (n % 100000000)) 8 '0')

/-! Consecutive-failure counter of `setupTransactionMonitor`
(`binance-service.ts:776-834`). -/

/-- Constant `MAX_CONSECUTIVE_ERRORS` of `setupTransactionMonitor`. -/
def maxConsecutiveErrors : Nat := 5

/-- Observable state of the polling loop: the `consecutiveErrors`
counter, whether the interval is still installed (`clearInterval` not yet
called), whether the operator alert was sent, and how many times
`checkTransactions` has been entered. -/
structure MonitorState where
  errors : Nat
  active : Bool
  alerted : Bool
  cycles : Nat
  deriving DecidableEq, Repr

/-- Environment of one timer tick: outside the operating window, a
successful cycle, or a failed cycle (recording whether the error message
contained `GW200` and whether the recovery `login()` succeeded). -/
inductive TickEv
  | outside
  | success
  | failure (gw200 reloginOk : Bool)
  deriving DecidableEq, Repr

/-- One tick of the interval callback of `setupTransactionMonitor`:
skip outside operating hours; on success reset the counter; on failure
increment it, reset it when a `GW200` re-login succeeds, and when it
reaches `MAX_CONSECUTIVE_ERRORS` send the operator alert (when an admin
chat is configured) and clear the interval.  A cleared interval receives
no further ticks, modelled as the state being frozen. -/
def monitorStep (adminConfigured : Bool) (s : MonitorState) (ev : TickEv) : MonitorState :=
  if !s.active then s
  else
    match ev with
    | .outside => s
    | .success => { s with errors := 0, cycles := s.cycles + 1 }
    | .failure gw200 reloginOk =>
      let e := if gw200 && reloginOk then 0 else s.errors + 1
      if maxConsecutiveErrors ≤ e then
        { errors := e, active := false, alerted := s.alerted || adminConfigured,
          cycles := s.cycles + 1 }
      else
        { s with errors := e, cycles := s.cycles + 1 }

/-- Run the polling loop over a sequence of tick environments. -/
def monitorRun (adminConfigured : Bool) (s : MonitorState) (evs : List TickEv) :
    MonitorState :=
  evs.foldl (monitorStep adminConfigured) s

/-- Initial state of the polling loop. -/
def monitorInit : MonitorState := { errors := 0, active := true, alerted := false, cycles := 0 }

/-! Spec-side predicates and small helpers used by the theorems. -/

/-- The matching predicate as the spec states it, with an explicit
tolerance band: the description contains the memo and the credit amount
is within `tol` of the requested amount (for comparison with the
source's `txMatches`). -/
def specTolMatches (tol : Int) (memo : List Char) (requested : Int)
    (tx : TransactionInfo) : Prop :=
  hasSubstr memo tx.transactionDesc = true ∧ |tx.creditAmount - requested| ≤ tol

instance (tol : Int) (memo : List Char) (requested : Int) (tx : TransactionInfo) :
    Decidable (specTolMatches tol memo requested tx) := by
  unfold specTolMatches; infer_instance

/-- Status stored for a payment id, when the record exists. -/
def statusOf (s : Ledger) (pid : Nat) : Option PayStatus :=
  (s.payments pid).map (·.status)

/-- The payment id carries no record in `pending` status (missing records
included). -/
def notPending (s : Ledger) (id : Nat) : Prop :=
  ∀ p, s.payments id = some p → p.status ≠ .pending

/-- A concrete credit transaction used to separate the source's exact
matching from the spec's tolerance-band matching: its description carries
the memo `12345678` and its amount misses the requested `260100` by
`500`. -/
def nearMissTx : TransactionInfo :=
  { transactionDate := 0, creditAmount := 260600,
    transactionDesc := "CK 12345678 chuyen tien".data, refNo := 7 }

/-- A concrete pending payment record used to exercise the operations. -/
def samplePendingRec : PaymentRec :=
  { userId := 5, email := some 9, amountUSDT := 10, amountVND := 260100,
    memo := "06070887".data, status := .pending, createdAt := 0, expiresAt := 1000 }

/-- A concrete ledger holding `samplePendingRec` as payment 1, pending,
indexed for expiry, and set as user 5's active payment. -/
def sampleActiveLedger : Ledger :=
  { payments := fun k => if k = 1 then some samplePendingRec else none,
    pendingSet := [1], completedSet := [], expirySet := [(1, 1000)],
    activePayment := fun u => if u = 5 then some 1 else none }

/-- A concrete completed payment record. -/
def sampleCompletedRec : PaymentRec :=
  { userId := 5, email := some 9, amountUSDT := 10, amountVND := 260100,
    memo := "06070887".data, status := .completed, createdAt := 0, expiresAt := 1000,
    usdtTransactionId := some 42 }

/-- A concrete ledger whose payment 1 is already `completed` but (still)
listed in the pending set and the expiry index, as a worst case for the
terminal-status freeze. -/
def sampleTerminalLedger : Ledger :=
  { payments := fun k => if k = 1 then some sampleCompletedRec else none,
    pendingSet := [1], completedSet := [1], expirySet := [(1, 1000)],
    activePayment := fun u => if u = 5 then some 1 else none }

/-- A concrete pending record that already carries a stored settlement
transaction id (prior partial success). -/
def samplePartialRec : PaymentRec :=
  { userId := 5, email := some 9, amountUSDT := 10, amountVND := 260100,
    memo := "06070887".data, status := .pending, createdAt := 0, expiresAt := 1000,
    usdtTransactionId := some 42 }

/-- Ledger holding `samplePartialRec` as pending payment 1. -/
def samplePartialLedger : Ledger :=
  { payments := fun k => if k = 1 then some samplePartialRec else none,
    pendingSet := [1], completedSet := [], expirySet := [(1, 1000)],
    activePayment := fun u => if u = 5 then some 1 else none }

/-- A transaction that exactly matches `samplePendingRec` (and
`samplePartialRec`): description contains the memo, amount equal. -/
def sampleMatchingTx : TransactionInfo :=
  { transactionDate := 10, creditAmount := 260100,
    transactionDesc := "CK 06070887 thanh toan".data, refNo := 99 }

/-- A settlement environment that resolves email 9 to user 77 and
completes every transfer with transaction id 1234, status 0. -/
def sampleEnv : SettlementEnv :=
  { userByEmail := fun e => if e = 9 then some 77 else none,
    transferResult := fun _ => .ok (1234, 0) }

/-! Theorems. -/

/-- Truncated day-division exceeds 90 exactly when the millisecond
difference is at least 91 full days. -/
theorem tdiv_day_gt_90_iff (x : Int) : 90 < Int.tdiv x msPerDay ↔ 91 * msPerDay ≤ x := by
  rw [show msPerDay = (86400000 : Int) from rfl]
  cases x with
  | ofNat m =>
    rw [show Int.tdiv (Int.ofNat m) (86400000 : Int) = ((m / 86400000 : Nat) : Int) from rfl,
      Int.ofNat_eq_natCast]
    omega
  | negSucc m =>
    rw [show Int.tdiv (Int.negSucc m) (86400000 : Int) = -(((m + 1) / 86400000 : Nat) : Int)
        from rfl,
      Int.negSucc_eq]
    push_cast
    omega

/-- C1 (counterexample): with a tolerance configured at 1000, a credit of
260600 against a requested 260100 and a description containing the memo
satisfies the spec's tolerance-band predicate, but `checkTransactions`
does not match it — its amount test is exact equality, ignoring any
tolerance. -/
theorem c1_counterexample :
    ¬ (txMatches "12345678".data 260100 nearMissTx = true ↔
        specTolMatches 1000 "12345678".data 260100 nearMissTx) := by
  decide

/-- C1 (amended): a transaction is matched to a pending payment iff its
description is non-empty and contains the payment's memo and its credit
amount equals the requested VND amount exactly — i.e. the spec's
predicate specialised to tolerance 0; no tolerance is configurable. -/
theorem c1_amended (memo : List Char) (amt : Int) (tx : TransactionInfo) :
    txMatches memo amt tx = true ↔
      tx.transactionDesc ≠ [] ∧ specTolMatches 0 memo amt tx := by
  unfold txMatches specTolMatches
  rw [Bool.and_eq_true, Bool.and_eq_true, beq_iff_eq]
  constructor
  · rintro ⟨⟨hne, hsub⟩, heq⟩
    refine ⟨?_, hsub, ?_⟩
    · intro hnil
      rw [hnil] at hne
      exact absurd hne (by decide)
    · rw [heq, sub_self, abs_zero]
  · rintro ⟨hne, hsub, habs⟩
    have heq : tx.creditAmount = amt := by
      have h2 := abs_le.mp habs
      omega
    refine ⟨⟨?_, hsub⟩, heq⟩
    cases h : tx.transactionDesc with
    | nil => exact absurd h hne
    | cons a l => rfl

/-- C4 (counterexample): a `fromDate`/`toDate` pair 200 days in the
future is, per the spec, more than 90 days from now and must be rejected,
but `getTransactionsHistory` does not raise the validation error: its
three truncated-difference tests all look only at one direction. -/
theorem c4_counterexample :
    historyRangeRejected 0 (200 * msPerDay) (200 * msPerDay) = false ∧
      specRangeRejected 0 (200 * msPerDay) (200 * msPerDay) := by
  decide

/-- C4 (amended): `getTransactionsHistory` raises the validation error
iff `fromDate` is at least 91 days before now, or `toDate` is at least
91 days before now, or `fromDate` is at least 91 days after `toDate`;
boundaries in the future and spans with `toDate` after `fromDate` are
never rejected by this check. -/
theorem c4_amended (now fromDate toDate : Int) :
    historyRangeRejected now fromDate toDate = true ↔
      (91 * msPerDay ≤ now - fromDate ∨ 91 * msPerDay ≤ now - toDate ∨
        91 * msPerDay ≤ fromDate - toDate) := by
  simp [historyRangeRejected, momentDiffDays, Bool.or_eq_true, decide_eq_true_eq,
    tdiv_day_gt_90_iff, or_assoc]

/-- C5: on an authenticated request whose bank responses are
session-expired, session-expired, then success, `mbRequest` performs two
re-logins and posts the request three times — the recursion on `GW200`
is unbounded, not capped at a single re-login and retry. -/
theorem c5_session_retry_unbounded :
    mbRequest true [.sessionExpired, .sessionExpired, .ok] = (.payload, 2, 3) := by
  rfl

/-- C6: with `amountUSDT = 10`, a base rate of 25500 and a 2% markup,
`generatePaymentInfo` computes
`amountVND = ceil(10 × 25500 × 1.02) = 260100`. -/
theorem c6_markup_scenario :
    computedAmountVND 10 (appliedRate 25500 2) = 260100 := by
  unfold computedAmountVND appliedRate
  norm_num

/-- A frozen (cleared-interval) monitor loop is unaffected by any further
tick environment. -/
theorem monitorRun_frozen (admin : Bool) (evs : List TickEv) (s : MonitorState)
    (h : s.active = false) : monitorRun admin s evs = s := by
  induction evs with
  | nil => rfl
  | cons ev rest ih =>
    show monitorRun admin (monitorStep admin s ev) rest = s
    rw [show monitorStep admin s ev = s by simp [monitorStep, h]]
    exact ih

/-- C8 (counterexample): after five consecutive failed cycles the loop is
already paused, yet the consecutive-failure counter took only the values
1, 2, 3, 4, 5 along the way and its final value 5 does not exceed the
configured threshold `MAX_CONSECUTIVE_ERRORS = 5` — the pause fires on
reaching the threshold, not on exceeding it. -/
theorem c8_counterexample :
    (monitorRun true monitorInit (List.replicate 1 (.failure false false))).errors = 1 ∧
    (monitorRun true monitorInit (List.replicate 2 (.failure false false))).errors = 2 ∧
    (monitorRun true monitorInit (List.replicate 3 (.failure false false))).errors = 3 ∧
    (monitorRun true monitorInit (List.replicate 4 (.failure false false))).errors = 4 ∧
    (monitorRun true monitorInit (List.replicate 4 (.failure false false))).active = true ∧
    (monitorRun true monitorInit (List.replicate 5 (.failure false false))).errors = 5 ∧
    (monitorRun true monitorInit (List.replicate 5 (.failure false false))).active = false ∧
    ¬ maxConsecutiveErrors < 5 := by
  decide

/-- C8 (amended): a failing cycle pauses the loop exactly when the
freshly incremented counter reaches (is at least) the configured
threshold and no successful `GW200` re-login reset it; the operator alert
is raised at that same moment when an admin chat is configured; a paused
loop is frozen — no tick ever executes another cycle or resumes it — and
a successful cycle resets the counter to zero. -/
theorem c8_amended (admin : Bool) (s : MonitorState) (evs : List TickEv) (g r : Bool) :
    monitorRun admin { s with active := false } evs = { s with active := false } ∧
    ((monitorStep admin { s with active := true } (.failure g r)).active = false ↔
      ((g && r) = false ∧ maxConsecutiveErrors ≤ s.errors + 1)) ∧
    (monitorStep admin { s with active := true } (.failure g r)).alerted =
      (s.alerted || (admin &&
        (!(g && r) && decide (maxConsecutiveErrors ≤ s.errors + 1)))) ∧
    (monitorStep admin { s with active := true } .success).errors = 0 := by
  refine ⟨monitorRun_frozen admin evs _ rfl, ?_, ?_, rfl⟩
  · unfold monitorStep
    cases hg : g && r with
    | true => simp [hg, maxConsecutiveErrors]
    | false =>
      by_cases h5 : maxConsecutiveErrors ≤ s.errors + 1
      · simp [hg, h5]
      · simp [hg, h5]
  · unfold monitorStep
    cases hg : g && r with
    | true => simp [hg, maxConsecutiveErrors]
    | false =>
      by_cases h5 : maxConsecutiveErrors ≤ s.errors + 1
      · simp [hg, h5]
      · simp [hg, h5]

/-- Applying `Nat.digitChar` to a value below 10 gives a decimal digit character. -/
theorem digitChar_isDigit (d : Nat) (h : d < 10) : (Nat.digitChar d).isDigit = true := by
  interval_cases d <;> decide

/-- Every character produced by `toDecAux` is a decimal digit. -/
theorem toDecAux_isDigit :
    ∀ (f n : Nat), ∀ c ∈ toDecAux f n, c.isDigit = true := by
  intro f
  induction f with
  | zero => intro n c hc; simp [toDecAux] at hc
  | succ f ih =>
    intro n c hc
    unfold toDecAux at hc
    by_cases h : n < 10
    · rw [if_pos h] at hc
      rcases List.mem_singleton.mp hc with rfl
      exact digitChar_isDigit n h
    · rw [if_neg h] at hc
      rcases List.mem_append.mp hc with h1 | h2
      · exact ih (n / 10) c h1
      · rcases List.mem_singleton.mp h2 with rfl
        exact digitChar_isDigit (n % 10) (Nat.mod_lt n (by omega))

/-- Rendering a number below `10 ^ k` with `toDecAux` gives at most `k` characters
(for `k ≥ 1`), for any fuel. -/
theorem toDecAux_length_le :
    ∀ (f k n : Nat), n < 10 ^ k → 1 ≤ k → (toDecAux f n).length ≤ k := by
  intro f
  induction f with
  | zero => intro k n _ _; simp [toDecAux]
  | succ f ih =>
    intro k n hn hk
    unfold toDecAux
    by_cases h : n < 10
    · rw [if_pos h]
      simpa using hk
    · rw [if_neg h]
      obtain ⟨k', rfl⟩ : ∃ k', k = k' + 1 := ⟨k - 1, by omega⟩
      have hk' : 1 ≤ k' := by
        by_contra hc
        have : k' = 0 := by omega
        subst this
        simp [pow_succ, pow_zero] at hn
        omega
      have hdiv : n / 10 < 10 ^ k' := by
        rw [Nat.div_lt_iff_lt_mul (by omega)]
        calc n < 10 ^ (k' + 1) := hn
          _ = 10 ^ k' * 10 := by ring
      have := ih k' (n / 10) hdiv hk'
      simp only [List.length_append, List.length_cons, List.length_nil]
      omega

/-- C9: every memo produced by `generatePaymentInfo` — the first 8
hexadecimal characters of the hyphen-stripped payment UUID, interpreted
as an integer, reduced modulo `10^8`, rendered in decimal and left-padded
with zeros to length 8 — is exactly 8 characters long and consists only
of decimal digits. -/
theorem c9_memo_shape (paymentId m : List Char)
    (h : generatedMemo paymentId = some m) :
    m.length = 8 ∧ ∀ c ∈ m, c.isDigit = true := by
  unfold generatedMemo at h
  rcases Option.map_eq_some'.mp h with ⟨n, hn, rfl⟩
  have hlt : n % 100000000 < 10 ^ 8 := Nat.mod_lt n (by norm_num)
  have hlen : (natToString (n % 100000000)).length ≤ 8 :=
    toDecAux_length_le _ 8 _ hlt (by norm_num)
  constructor
  · simp only [padStart, List.length_append, List.length_replicate]
    omega
  · intro c hc
    rcases List.mem_append.mp hc with h1 | h2
    · rcases List.eq_of_mem_replicate h1 with rfl
      decide
    · exact toDecAux_isDigit _ _ c h2

/-- C9 (witness): the memo generated for the UUID
`123e4567-e89b-12d3-a456-426614174000` is `06070887`, which indeed has
length 8 and consists of decimal digits. -/
theorem c9_memo_shape_witness :
    ("06070887".data).length = 8 ∧ ∀ c ∈ "06070887".data, c.isDigit = true :=
  c9_memo_shape "123e4567-e89b-12d3-a456-426614174000".data "06070887".data (by decide)

/-- C10: the cancel action mutates state only for an existing, owned,
still-`pending` payment — it then marks it `canceled` with a timestamp,
removes it from the pending set, touches no other payment, set, or user
pointer, and clears the user's `activePayment` pointer exactly when that
pointer referenced this payment; in every other case (missing payment,
different owner, non-pending status) the whole ledger is unchanged. -/
theorem c10_cancel_guarded (uid pid : Nat) (time : Int) (s : Ledger) :
    (∀ p, s.payments pid = some p → p.userId = uid → p.status = .pending →
      (cancelPaymentAction uid pid time s).payments pid =
        some { p with status := .canceled, canceledAt := some time } ∧
      pid ∉ (cancelPaymentAction uid pid time s).pendingSet ∧
      (∀ id, id ≠ pid →
        (cancelPaymentAction uid pid time s).payments id = s.payments id ∧
        (id ∈ (cancelPaymentAction uid pid time s).pendingSet ↔ id ∈ s.pendingSet)) ∧
      (cancelPaymentAction uid pid time s).completedSet = s.completedSet ∧
      (cancelPaymentAction uid pid time s).expirySet = s.expirySet ∧
      ((cancelPaymentAction uid pid time s).activePayment uid = none ↔
        (s.activePayment uid = some pid ∨ s.activePayment uid = none)) ∧
      (s.activePayment uid ≠ some pid →
        (cancelPaymentAction uid pid time s).activePayment uid = s.activePayment uid) ∧
      (∀ u, u ≠ uid →
        (cancelPaymentAction uid pid time s).activePayment u = s.activePayment u)) ∧
    (s.payments pid = none → cancelPaymentAction uid pid time s = s) ∧
    (∀ p, s.payments pid = some p → p.userId ≠ uid →
      cancelPaymentAction uid pid time s = s) ∧
    (∀ p, s.payments pid = some p → p.status ≠ .pending →
      cancelPaymentAction uid pid time s = s) := by
  refine ⟨?_, ?_, ?_, ?_⟩
  · intro p hp hu hst
    unfold cancelPaymentAction
    rw [hp]
    dsimp only
    rw [if_neg (by simp [hu]), if_neg (by simp [hst])]
    split
    · rename_i hact
      have hact' : s.activePayment uid = some pid := hact
      refine ⟨?_, ?_, ?_, rfl, rfl, ?_, ?_, ?_⟩
      · simp [sremPending, hsetPayment, hp]
      · simp [sremPending, hsetPayment]
      · intro id hid
        refine ⟨?_, ?_⟩
        · simp [sremPending, hsetPayment, hid]
        · simp [sremPending, hsetPayment, List.mem_filter, hid]
      · simp [hact']
      · intro hne
        exact absurd hact' hne
      · intro u hu'
        simp [hu', sremPending, hsetPayment]
    · rename_i hact
      have hact' : ¬ s.activePayment uid = some pid := hact
      refine ⟨?_, ?_, ?_, rfl, rfl, ?_, ?_, ?_⟩
      · simp [sremPending, hsetPayment, hp]
      · simp [sremPending, hsetPayment]
      · intro id hid
        refine ⟨?_, ?_⟩
        · simp [sremPending, hsetPayment, hid]
        · simp [sremPending, hsetPayment, List.mem_filter, hid]
      · show s.activePayment uid = none ↔ _
        constructor
        · exact fun h => Or.inr h
        · rintro (h | h)
          · exact absurd h hact'
          · exact h
      · intro _
        rfl
      · intro u _
        rfl
  · intro hp
    unfold cancelPaymentAction
    rw [hp]
  · intro p hp hu
    unfold cancelPaymentAction
    rw [hp]
    simp [hu]
  · intro p hp hst
    unfold cancelPaymentAction
    rw [hp]
    by_cases hu : p.userId ≠ uid
    · simp [hu]
    · simp [hu, hst]

/-- C10 (witness): cancelling payment 1 of `sampleActiveLedger` as its
owner marks it canceled with the timestamp, empties the pending set entry
and clears the active-payment pointer. -/
theorem c10_cancel_guarded_witness :
    (cancelPaymentAction 5 1 77 sampleActiveLedger).payments 1 =
      some { samplePendingRec with status := .canceled, canceledAt := some 77 } ∧
    1 ∉ (cancelPaymentAction 5 1 77 sampleActiveLedger).pendingSet ∧
    (cancelPaymentAction 5 1 77 sampleActiveLedger).activePayment 5 = none := by
  obtain ⟨h1, h2, _, _, _, h6, _, _⟩ :=
    (c10_cancel_guarded 5 1 77 sampleActiveLedger).1 samplePendingRec (by decide) rfl rfl
  exact ⟨h1, h2, h6.mpr (Or.inl (by decide))⟩

/-- Updating a payment hash leaves every other payment hash unchanged. -/
theorem hsetPayment_payments_ne (s : Ledger) (pid : Nat) (f : PaymentRec → PaymentRec)
    (id : Nat) (h : id ≠ pid) : (hsetPayment s pid f).payments id = s.payments id := by
  simp [hsetPayment, h]

/-- The transfer step `processUsdtTransfer` writes no payment hash other than its own. -/
theorem processUsdtTransfer_payments_ne (env : SettlementEnv) (time : Int) (pid : Nat)
    (p : PaymentRec) (s : Ledger) (id : Nat) (h : id ≠ pid) :
    ((processUsdtTransfer env time pid p s).1).payments id = s.payments id := by
  unfold processUsdtTransfer
  split
  · rfl
  · split
    · rfl
    · split <;> simp [hsetPayment, sremPending, saddCompleted, h]

/-- A payment with no record or a non-`pending` record is skipped by the
reconciliation loop body: the ledger is unchanged and no transfer is
invoked. -/
theorem processOnePayment_skip (env : SettlementEnv) (txs : List TransactionInfo)
    (time : Int) (s : Ledger) (pid : Nat) (h : notPending s pid) :
    processOnePayment env txs time s pid = (s, false) := by
  unfold processOnePayment
  cases hp : s.payments pid with
  | none => rfl
  | some p => simp [h p hp]

/-- A pending payment with no matching credit transaction is left
untouched by the reconciliation loop body. -/
theorem processOnePayment_no_match (env : SettlementEnv) (txs : List TransactionInfo)
    (time : Int) (s : Ledger) (pid : Nat) (p : PaymentRec)
    (hp : s.payments pid = some p) (hst : p.status = .pending)
    (hm : findMatching p.memo p.amountVND txs = none) :
    processOnePayment env txs time s pid = (s, false) := by
  unfold processOnePayment
  rw [hp]
  dsimp only
  rw [if_neg (by simp [hst]), hm]

/-- The reconciliation loop body writes no payment hash other than the
one it is processing. -/
theorem processOnePayment_payments_ne (env : SettlementEnv) (txs : List TransactionInfo)
    (time : Int) (s : Ledger) (pid : Nat) (id : Nat) (h : id ≠ pid) :
    ((processOnePayment env txs time s pid).1).payments id = s.payments id := by
  unfold processOnePayment
  cases hp : s.payments pid with
  | none => rfl
  | some p =>
    dsimp only
    by_cases hst : p.status ≠ .pending
    · rw [if_pos hst]
    · rw [if_neg hst]
      cases hm : findMatching p.memo p.amountVND txs with
      | none => rfl
      | some tx =>
        dsimp only
        by_cases htid : p.usdtTransactionId = none
        · rw [if_pos htid]
          cases herr : (processUsdtTransfer env time pid p
              (hsetPayment s pid fun q =>
                { q with status := .processing, vndReceivedAt := some time,
                         transactionRef := some tx.refNo })).2.2 with
          | none =>
            dsimp only
            rw [processUsdtTransfer_payments_ne env time pid p _ id h,
              hsetPayment_payments_ne s pid _ id h]
          | some msg =>
            dsimp only
            rw [hsetPayment_payments_ne _ pid _ id h,
              processUsdtTransfer_payments_ne env time pid p _ id h,
              hsetPayment_payments_ne s pid _ id h]
        · rw [if_neg htid]
          simp [saddCompleted, sremPending, hsetPayment, h]

/-- After the loop body handles a matched pending payment, its stored
status is terminal: `completed` or `manual_review`. -/
theorem processOnePayment_match_terminal (env : SettlementEnv) (txs : List TransactionInfo)
    (time : Int) (s : Ledger) (pid : Nat) (p : PaymentRec) (tx : TransactionInfo)
    (hp : s.payments pid = some p) (hst : p.status = .pending)
    (hm : findMatching p.memo p.amountVND txs = some tx) :
    statusOf ((processOnePayment env txs time s pid).1) pid = some .completed ∨
      statusOf ((processOnePayment env txs time s pid).1) pid = some .manualReview := by
  unfold processOnePayment
  rw [hp]
  dsimp only
  rw [if_neg (by simp [hst]), hm]
  dsimp only
  by_cases htid : p.usdtTransactionId = none
  · rw [if_pos htid]
    unfold processUsdtTransfer
    cases hem : p.email with
    | none =>
      right
      simp [statusOf, hsetPayment, hp]
    | some e =>
      dsimp only
      cases hfound : env.userByEmail e with
      | none =>
        right
        simp [statusOf, hsetPayment, hp]
      | some uid =>
        dsimp only
        cases htr : env.transferResult pid with
        | error msg =>
          right
          simp [statusOf, hsetPayment, hp]
        | ok res =>
          obtain ⟨tid, tst⟩ := res
          left
          simp [statusOf, saddCompleted, sremPending, hsetPayment, hp]
  · rw [if_neg htid]
    left
    simp [statusOf, saddCompleted, sremPending, hsetPayment, hp]

/-- The reconciliation loop body preserves any record that is not in
`pending` status, at any key. -/
theorem processOnePayment_preserves_nonpending (env : SettlementEnv)
    (txs : List TransactionInfo) (time : Int) (s : Ledger) (pid id : Nat) (p : PaymentRec)
    (hp : s.payments id = some p) (hst : p.status ≠ .pending) :
    ((processOnePayment env txs time s pid).1).payments id = some p := by
  by_cases h : id = pid
  · subst h
    rw [processOnePayment_skip env txs time s id]
    · exact hp
    · intro q hq
      rw [hp] at hq
      injection hq with hq
      rw [← hq]
      exact hst
  · rw [processOnePayment_payments_ne env txs time s pid id h]
    exact hp

/-- The whole reconciliation loop preserves any record that is not in
`pending` status. -/
theorem checkTransactionsGo_preserves (env : SettlementEnv) (txs : List TransactionInfo)
    (time : Int) (id : Nat) (p : PaymentRec) :
    ∀ (ids : List Nat) (s : Ledger) (out : List Nat),
      s.payments id = some p → p.status ≠ .pending →
      ((checkTransactionsGo env txs time ids (s, out)).1).payments id = some p := by
  intro ids
  induction ids with
  | nil => intro s out hp _; exact hp
  | cons pid rest ih =>
    intro s out hp hst
    exact ih _ _ (processOnePayment_preserves_nonpending env txs time s pid id p hp hst) hst

/-- The sweep step `expireOnePayment` writes no payment hash other than its own. -/
theorem expireOnePayment_payments_ne (now : Int) (s : Ledger) (pid id : Nat)
    (h : id ≠ pid) :
    ((expireOnePayment now s pid).1).payments id = s.payments id := by
  unfold expireOnePayment
  cases hp : s.payments pid with
  | none => rfl
  | some p =>
    dsimp only
    by_cases hst : p.status = .pending
    · rw [if_pos hst]
      simp [zremExpiry, sremPending, updatePaymentStatusExpired, hsetPayment, h]
    · rw [if_neg hst]
      rfl

/-- The sweep step `expireOnePayment` preserves pending-set membership of every other
id. -/
theorem expireOnePayment_pending_ne (now : Int) (s : Ledger) (pid id : Nat)
    (h : id ≠ pid) :
    (id ∈ ((expireOnePayment now s pid).1).pendingSet ↔ id ∈ s.pendingSet) := by
  unfold expireOnePayment
  cases hp : s.payments pid with
  | none => simp [zremExpiry]
  | some p =>
    dsimp only
    by_cases hst : p.status = .pending
    · rw [if_pos hst]
      simp [zremExpiry, sremPending, updatePaymentStatusExpired, hsetPayment,
        List.mem_filter, h]
    · rw [if_neg hst]
      simp [zremExpiry]

/-- The sweep step `expireOnePayment` preserves expiry-index entries of every other id. -/
theorem expireOnePayment_expiry_ne (now : Int) (s : Ledger) (pid id : Nat) (sc : Int)
    (h : id ≠ pid) :
    ((id, sc) ∈ ((expireOnePayment now s pid).1).expirySet ↔ (id, sc) ∈ s.expirySet) := by
  unfold expireOnePayment
  cases hp : s.payments pid with
  | none => simp [zremExpiry, List.mem_filter, h]
  | some p =>
    dsimp only
    by_cases hst : p.status = .pending
    · rw [if_pos hst]
      simp [zremExpiry, sremPending, updatePaymentStatusExpired, hsetPayment,
        List.mem_filter, h]
    · rw [if_neg hst]
      simp [zremExpiry, List.mem_filter, h]

/-- The expiry sweep preserves any record that is not in `pending`
status. -/
theorem expirySweepGo_preserves (now : Int) (id : Nat) (p : PaymentRec) :
    ∀ (ids : List Nat) (s : Ledger) (out : List Nat),
      s.payments id = some p → p.status ≠ .pending →
      ((expirySweepGo now ids (s, out)).1).payments id = some p := by
  intro ids
  induction ids with
  | nil => intro s out hp _; exact hp
  | cons pid rest ih =>
    intro s out hp hst
    refine ih _ _ ?_ hst
    by_cases h : id = pid
    · subst h
      unfold expireOnePayment
      rw [hp]
      dsimp only
      rw [if_neg hst]
      exact hp
    · rw [expireOnePayment_payments_ne now s pid id h]
      exact hp

/-- The cancel action preserves any record that is not in `pending`
status, at any key. -/
theorem cancelPaymentAction_preserves_nonpending (uid pid : Nat) (time : Int)
    (s : Ledger) (id : Nat) (p : PaymentRec)
    (hp : s.payments id = some p) (hst : p.status ≠ .pending) :
    (cancelPaymentAction uid pid time s).payments id = some p := by
  unfold cancelPaymentAction
  cases hq : s.payments pid with
  | none => exact hp
  | some q =>
    dsimp only
    by_cases hu : q.userId ≠ uid
    · rw [if_pos hu]
      exact hp
    · rw [if_neg hu]
      by_cases hqs : q.status ≠ .pending
      · rw [if_pos hqs]
        exact hp
      · rw [if_neg hqs]
        have hne : id ≠ pid := by
          intro he
          subst he
          rw [hp] at hq
          injection hq with hq
          subst hq
          exact hqs hst
        split
        · simp [sremPending, hsetPayment, hne, hp]
        · simp [sremPending, hsetPayment, hne, hp]

/-- C2: once a payment's status is terminal (`completed`, `expired`,
`canceled`, or `manual_review`), no operation of the system — a
reconciliation cycle, an expiry sweep, or a cancellation — changes its
record (in particular its status) ever again. -/
theorem c2_terminal_frozen (op : LedgerOp) (s : Ledger) (id : Nat) (p : PaymentRec)
    (hp : s.payments id = some p) (ht : isTerminal p.status = true) :
    (applyOp op s).payments id = some p := by
  have hst : p.status ≠ .pending := by
    cases hs : p.status <;> simp [hs, isTerminal] at ht ⊢
  cases op with
  | cycle env txs time =>
    exact checkTransactionsGo_preserves env txs time id p _ s [] hp hst
  | sweep now =>
    exact expirySweepGo_preserves now id p _ s [] hp hst
  | cancel uid pid time =>
    exact cancelPaymentAction_preserves_nonpending uid pid time s id p hp hst

/-- C2 (witness): a reconciliation cycle over `sampleTerminalLedger`
(whose payment 1 is `completed` yet still listed as pending and indexed
for expiry) with a transaction that would match it leaves its record
untouched. -/
theorem c2_terminal_frozen_witness :
    (applyOp (.cycle sampleEnv [sampleMatchingTx] 50) sampleTerminalLedger).payments 1 =
      some sampleCompletedRec :=
  c2_terminal_frozen (.cycle sampleEnv [sampleMatchingTx] 50) sampleTerminalLedger 1
    sampleCompletedRec (by decide) (by decide)

/-- One unfolding step of the reconciliation loop. -/
theorem checkTransactionsGo_cons (env : SettlementEnv) (txs : List TransactionInfo)
    (time : Int) (pid : Nat) (rest : List Nat) (s : Ledger) (out : List Nat) :
    checkTransactionsGo env txs time (pid :: rest) (s, out) =
      checkTransactionsGo env txs time rest
        ((processOnePayment env txs time s pid).1,
          out ++ if (processOnePayment env txs time s pid).2 then [pid] else []) := rfl

/-- Once a payment id holds no pending record, the reconciliation loop
never invokes settlement for it and the id stays non-pending. -/
theorem checkTransactionsGo_notPending (env : SettlementEnv) (txs : List TransactionInfo)
    (time : Int) (id : Nat) :
    ∀ (ids : List Nat) (s : Ledger) (out : List Nat), notPending s id →
      (checkTransactionsGo env txs time ids (s, out)).2.count id = out.count id ∧
      notPending (checkTransactionsGo env txs time ids (s, out)).1 id := by
  intro ids
  induction ids with
  | nil => intro s out h; exact ⟨rfl, h⟩
  | cons pid rest ih =>
    intro s out h
    rw [checkTransactionsGo_cons]
    by_cases hpid : pid = id
    · subst hpid
      rw [processOnePayment_skip env txs time s pid h]
      simpa using ih s out h
    · have hpres : notPending (processOnePayment env txs time s pid).1 id := by
        intro q hq
        rw [processOnePayment_payments_ne env txs time s pid id
          (fun he => hpid he.symm)] at hq
        exact h q hq
      have hcount : (out ++ if (processOnePayment env txs time s pid).2 then [pid]
          else []).count id = out.count id := by
        cases (processOnePayment env txs time s pid).2 <;>
          simp [List.count_append, List.count_cons, hpid]
      have := ih (processOnePayment env txs time s pid).1
        (out ++ if (processOnePayment env txs time s pid).2 then [pid] else []) hpres
      rw [hcount] at this
      exact this

/-- Across one pass of the reconciliation loop, settlement is invoked at
most once for any id, and an invocation leaves the id non-pending. -/
theorem checkTransactionsGo_count_le (env : SettlementEnv) (txs : List TransactionInfo)
    (time : Int) (id : Nat) :
    ∀ (ids : List Nat) (s : Ledger) (out : List Nat),
      (checkTransactionsGo env txs time ids (s, out)).2.count id ≤ out.count id + 1 ∧
      (out.count id < (checkTransactionsGo env txs time ids (s, out)).2.count id →
        notPending (checkTransactionsGo env txs time ids (s, out)).1 id) := by
  intro ids
  induction ids with
  | nil =>
    intro s out
    exact ⟨Nat.le_succ _, fun hlt => absurd hlt (lt_irrefl _)⟩
  | cons pid rest ih =>
    intro s out
    rw [checkTransactionsGo_cons]
    by_cases hpid : pid = id
    · subst hpid
      by_cases hnp : notPending s pid
      · rw [processOnePayment_skip env txs time s pid hnp]
        rw [show (out ++ if false = true then [pid] else []) = out from by simp]
        have hG := checkTransactionsGo_notPending env txs time pid rest s out hnp
        exact ⟨by rw [hG.1]; exact Nat.le_succ _, fun _ => hG.2⟩
      · unfold notPending at hnp
        push_neg at hnp
        obtain ⟨p, hp, hst⟩ := hnp
        cases hm : findMatching p.memo p.amountVND txs with
        | none =>
          rw [processOnePayment_no_match env txs time s pid p hp hst hm]
          simpa using ih s out
        | some tx =>
          have hterm := processOnePayment_match_terminal env txs time s pid p tx hp hst hm
          have hstat : ∃ st, statusOf (processOnePayment env txs time s pid).1 pid =
              some st ∧ st ≠ PayStatus.pending := by
            rcases hterm with hc | hc
            · exact ⟨.completed, hc, by intro hf; cases hf⟩
            · exact ⟨.manualReview, hc, by intro hf; cases hf⟩
          have hnp' : notPending (processOnePayment env txs time s pid).1 pid := by
            intro q hq
            obtain ⟨st, hc, hne⟩ := hstat
            unfold statusOf at hc
            rw [hq] at hc
            simp only [Option.map_some', Option.some.injEq] at hc
            rw [hc]
            exact hne
          have hG := checkTransactionsGo_notPending env txs time pid rest
            (processOnePayment env txs time s pid).1
            (out ++ if (processOnePayment env txs time s pid).2 then [pid] else []) hnp'
          refine ⟨?_, fun _ => hG.2⟩
          rw [hG.1]
          cases (processOnePayment env txs time s pid).2 <;>
            simp [List.count_append, List.count_cons]
    · have hcount : (out ++ if (processOnePayment env txs time s pid).2 then [pid]
          else []).count id = out.count id := by
        cases (processOnePayment env txs time s pid).2 <;>
          simp [List.count_append, List.count_cons, hpid]
      have := ih (processOnePayment env txs time s pid).1
        (out ++ if (processOnePayment env txs time s pid).2 then [pid] else [])
      rw [hcount] at this
      exact this

/-- A matched pending payment that already carries a stored settlement
transaction id is completed without invoking the transfer. -/
theorem processOnePayment_skip_transfer (env : SettlementEnv) (txs : List TransactionInfo)
    (time : Int) (s : Ledger) (pid : Nat) (p : PaymentRec) (tx : TransactionInfo)
    (tid : Nat) (hp : s.payments pid = some p) (hst : p.status = .pending)
    (hm : findMatching p.memo p.amountVND txs = some tx)
    (htid : p.usdtTransactionId = some tid) :
    (processOnePayment env txs time s pid).2 = false ∧
    statusOf (processOnePayment env txs time s pid).1 pid = some .completed := by
  unfold processOnePayment
  rw [hp]
  dsimp only
  rw [if_neg (by simp [hst]), hm]
  dsimp only
  rw [if_neg (by simp [htid])]
  exact ⟨rfl, by simp [statusOf, saddCompleted, sremPending, hsetPayment, hp]⟩

/-- C3: running the same reconciliation cycle twice over an unchanged
transaction set and settlement environment invokes the settlement
transfer at most once for any payment id; and a matched pending payment
that already stores a settlement (USDT) transaction id skips the
transfer entirely and transitions directly to `completed`. -/
theorem c3_settlement_idempotent (env : SettlementEnv) (txs : List TransactionInfo)
    (t1 t2 : Int) (s : Ledger) (id : Nat) :
    ((checkTransactions env txs t1 s).2 ++
        (checkTransactions env txs t2 (checkTransactions env txs t1 s).1).2).count id
      ≤ 1 ∧
    (∀ (p : PaymentRec) (tid : Nat) (tx : TransactionInfo),
      s.payments id = some p → p.status = .pending →
      p.usdtTransactionId = some tid →
      findMatching p.memo p.amountVND txs = some tx →
      (processOnePayment env txs t1 s id).2 = false ∧
      statusOf (processOnePayment env txs t1 s id).1 id = some .completed) := by
  constructor
  · unfold checkTransactions
    have hA := checkTransactionsGo_count_le env txs t1 id s.pendingSet s []
    rcases Nat.lt_or_ge 0 ((checkTransactionsGo env txs t1 s.pendingSet (s, [])).2.count id)
      with hpos | hzero
    · have hnp := hA.2 (by simpa using hpos)
      have hB := checkTransactionsGo_notPending env txs t2 id
        ((checkTransactionsGo env txs t1 s.pendingSet (s, [])).1).pendingSet
        (checkTransactionsGo env txs t1 s.pendingSet (s, [])).1 [] hnp
      rw [List.count_append, hB.1]
      have h1 := hA.1
      simp only [List.count_nil] at h1 ⊢
      omega
    · have hB := checkTransactionsGo_count_le env txs t2 id
        ((checkTransactionsGo env txs t1 s.pendingSet (s, [])).1).pendingSet
        (checkTransactionsGo env txs t1 s.pendingSet (s, [])).1 []
      rw [List.count_append]
      have h1 := hB.1
      simp only [List.count_nil] at hzero h1 ⊢
      omega
  · intro p tid tx hp hst htid hm
    exact processOnePayment_skip_transfer env txs t1 s id p tx tid hp hst hm htid

/-- C3 (witness): on `samplePartialLedger`, whose pending payment 1
already stores settlement transaction id 42, the matched cycle body
invokes no transfer and completes the payment; two full cycles invoke
settlement for id 1 at most once. -/
theorem c3_settlement_idempotent_witness :
    ((checkTransactions sampleEnv [sampleMatchingTx] 0 samplePartialLedger).2 ++
        (checkTransactions sampleEnv [sampleMatchingTx] 1
          (checkTransactions sampleEnv [sampleMatchingTx] 0 samplePartialLedger).1).2).count 1
      ≤ 1 ∧
    (processOnePayment sampleEnv [sampleMatchingTx] 0 samplePartialLedger 1).2 = false ∧
    statusOf (processOnePayment sampleEnv [sampleMatchingTx] 0 samplePartialLedger 1).1 1 =
      some .completed := by
  obtain ⟨h1, h2⟩ :=
    c3_settlement_idempotent sampleEnv [sampleMatchingTx] 0 1 samplePartialLedger 1
  exact ⟨h1, h2 samplePartialRec 42 sampleMatchingTx (by decide) rfl rfl (by decide)⟩

/-- One unfolding step of the expiry-sweep loop. -/
theorem expirySweepGo_cons (now : Int) (pid : Nat) (rest : List Nat) (s : Ledger)
    (out : List Nat) :
    expirySweepGo now (pid :: rest) (s, out) =
      expirySweepGo now rest
        ((expireOnePayment now s pid).1,
          out ++ if (expireOnePayment now s pid).2 then [pid] else []) := rfl

/-- The expiry-sweep loop distributes over list append. -/
theorem expirySweepGo_append (now : Int) :
    ∀ (a b : List Nat) (acc : Ledger × List Nat),
      expirySweepGo now (a ++ b) acc = expirySweepGo now b (expirySweepGo now a acc) := by
  intro a
  induction a with
  | nil => intro b acc; rfl
  | cons pid rest ih =>
    intro b acc
    obtain ⟨s, out⟩ := acc
    rw [List.cons_append, expirySweepGo_cons, ih, expirySweepGo_cons]

/-- Ids not visited by the expiry-sweep loop keep their record, their
pending-set membership, their expiry-index entries and their
notification status. -/
theorem expirySweepGo_ne (now : Int) (id : Nat) :
    ∀ (ids : List Nat) (s : Ledger) (out : List Nat), id ∉ ids →
      ((expirySweepGo now ids (s, out)).1.payments id = s.payments id) ∧
      (id ∈ (expirySweepGo now ids (s, out)).1.pendingSet ↔ id ∈ s.pendingSet) ∧
      (∀ sc, ((id, sc) ∈ (expirySweepGo now ids (s, out)).1.expirySet ↔
        (id, sc) ∈ s.expirySet)) ∧
      (id ∈ (expirySweepGo now ids (s, out)).2 ↔ id ∈ out) := by
  intro ids
  induction ids with
  | nil => intro s out _; exact ⟨rfl, Iff.rfl, fun _ => Iff.rfl, Iff.rfl⟩
  | cons pid rest ih =>
    intro s out hni
    have hpid : id ≠ pid := fun he => hni (he ▸ List.mem_cons_self pid rest)
    have hrest : id ∉ rest := fun hr => hni (List.mem_cons_of_mem pid hr)
    rw [expirySweepGo_cons]
    obtain ⟨ih1, ih2, ih3, ih4⟩ := ih (expireOnePayment now s pid).1
      (out ++ if (expireOnePayment now s pid).2 then [pid] else []) hrest
    refine ⟨?_, ?_, ?_, ?_⟩
    · rw [ih1, expireOnePayment_payments_ne now s pid id hpid]
    · rw [ih2, expireOnePayment_pending_ne now s pid id hpid]
    · intro sc
      rw [ih3 sc, expireOnePayment_expiry_ne now s pid id sc hpid]
    · rw [ih4]
      cases (expireOnePayment now s pid).2 <;> simp [hpid]

/-- A due id with a missing record is only dropped from the expiry
index. -/
theorem expireOnePayment_self_missing (now : Int) (s : Ledger) (pid : Nat)
    (h : s.payments pid = none) :
    expireOnePayment now s pid = (zremExpiry s pid, false) := by
  unfold expireOnePayment
  rw [h]

/-- A due id whose record is not `pending` is only dropped from the
expiry index. -/
theorem expireOnePayment_self_nonpending (now : Int) (s : Ledger) (pid : Nat)
    (p : PaymentRec) (hp : s.payments pid = some p) (hst : p.status ≠ .pending) :
    expireOnePayment now s pid = (zremExpiry s pid, false) := by
  unfold expireOnePayment
  rw [hp]
  dsimp only
  rw [if_neg hst]

/-- A due id whose record is still `pending` is marked `expired`, removed
from the pending set, notified, and dropped from the expiry index. -/
theorem expireOnePayment_self_pending (now : Int) (s : Ledger) (pid : Nat)
    (p : PaymentRec) (hp : s.payments pid = some p) (hst : p.status = .pending) :
    statusOf (expireOnePayment now s pid).1 pid = some .expired ∧
    pid ∉ ((expireOnePayment now s pid).1).pendingSet ∧
    (expireOnePayment now s pid).2 = true ∧
    ∀ sc, (pid, sc) ∉ ((expireOnePayment now s pid).1).expirySet := by
  unfold expireOnePayment
  rw [hp]
  dsimp only
  rw [if_pos hst]
  refine ⟨?_, ?_, rfl, ?_⟩
  · simp [statusOf, zremExpiry, sremPending, updatePaymentStatusExpired, hsetPayment, hp]
  · simp [zremExpiry, sremPending, List.mem_filter]
  · intro sc
    simp [zremExpiry, List.mem_filter]

/-- Entries of a removed member never remain in the expiry index. -/
theorem zremExpiry_not_mem (s : Ledger) (pid : Nat) (sc : Int) :
    (pid, sc) ∉ (zremExpiry s pid).expirySet := by
  simp [zremExpiry, List.mem_filter]

/-- C7: in an expiry sweep, every entry of the expiry index whose score
is at or before the sweep time is removed from the index by the end of
the sweep; a missing record is only dropped (record still missing,
pending membership untouched, no notification); a still-`pending` record
is transitioned to `expired`, removed from the pending index, and its
user notified; a non-`pending` record is left unchanged and not
notified. -/
theorem c7_expiry_sweep (now : Int) (s : Ledger) (id : Nat) (sc : Int)
    (hnodup : (s.expirySet.map Prod.fst).Nodup)
    (hmem : (id, sc) ∈ s.expirySet) (h0 : 0 ≤ sc) (hdue : sc ≤ now) :
    (∀ sc', (id, sc') ∉ ((expirySweep now s).1).expirySet) ∧
    (s.payments id = none →
      ((expirySweep now s).1).payments id = none ∧
      (id ∈ ((expirySweep now s).1).pendingSet ↔ id ∈ s.pendingSet) ∧
      id ∉ (expirySweep now s).2) ∧
    (∀ p, s.payments id = some p → p.status = .pending →
      statusOf (expirySweep now s).1 id = some .expired ∧
      id ∉ ((expirySweep now s).1).pendingSet ∧
      id ∈ (expirySweep now s).2) ∧
    (∀ p, s.payments id = some p → p.status ≠ .pending →
      ((expirySweep now s).1).payments id = some p ∧
      id ∉ (expirySweep now s).2) := by
  have hid_due : id ∈ getExpiredPayments now s := by
    unfold getExpiredPayments
    exact List.mem_map.mpr ⟨(id, sc), List.mem_filter.mpr (by simp [hmem, h0, hdue]), rfl⟩
  have hdue_nodup : (getExpiredPayments now s).Nodup := by
    unfold getExpiredPayments
    exact ((List.filter_sublist s.expirySet).map Prod.fst).nodup hnodup
  obtain ⟨l1, l2, hsplit⟩ := List.append_of_mem hid_due
  have hnd : (l1 ++ id :: l2).Nodup := hsplit ▸ hdue_nodup
  have hid1 : id ∉ l1 := by
    intro hin
    exact (List.disjoint_of_nodup_append hnd) hin (List.mem_cons_self id l2)
  have hid2 : id ∉ l2 := by
    have := (List.nodup_append.mp hnd).2.1
    exact (List.nodup_cons.mp this).1
  unfold expirySweep
  rw [hsplit, expirySweepGo_append, expirySweepGo_cons]
  obtain ⟨hA1, hA2, hA3, hA4⟩ := expirySweepGo_ne now id l1 s [] hid1
  set sA := (expirySweepGo now l1 (s, [])).1 with hsA
  set outA := (expirySweepGo now l1 (s, [])).2 with houtA
  have hAnot : id ∉ outA := fun h => by simpa using hA4.mp h
  refine ⟨?_, ?_, ?_, ?_⟩
  · intro sc'
    rcases hrec : s.payments id with _ | p
    · rw [expireOnePayment_self_missing now sA id (hA1.trans hrec)]
      obtain ⟨_, _, hB3, _⟩ := expirySweepGo_ne now id l2 (zremExpiry sA id) _ hid2
      intro hin
      exact zremExpiry_not_mem sA id sc' ((hB3 sc').mp hin)
    · by_cases hst : p.status = .pending
      · obtain ⟨_, _, _, hE4⟩ :=
          expireOnePayment_self_pending now sA id p (hA1.trans hrec) hst
        obtain ⟨_, _, hB3, _⟩ := expirySweepGo_ne now id l2 (expireOnePayment now sA id).1
          _ hid2
        intro hin
        exact hE4 sc' ((hB3 sc').mp hin)
      · rw [expireOnePayment_self_nonpending now sA id p (hA1.trans hrec) hst]
        obtain ⟨_, _, hB3, _⟩ := expirySweepGo_ne now id l2 (zremExpiry sA id) _ hid2
        intro hin
        exact zremExpiry_not_mem sA id sc' ((hB3 sc').mp hin)
  · intro hrec
    rw [expireOnePayment_self_missing now sA id (hA1.trans hrec)]
    obtain ⟨hB1, hB2, _, hB4⟩ := expirySweepGo_ne now id l2 (zremExpiry sA id)
      (outA ++ if false then [id] else []) hid2
    refine ⟨?_, ?_, ?_⟩
    · rw [hB1]
      exact hA1.trans hrec
    · rw [hB2]
      exact hA2
    · intro hin
      have := hB4.mp hin
      simp at this
      exact hAnot this
  · intro p hrec hst
    obtain ⟨hE1, hE2, hE3, _⟩ :=
      expireOnePayment_self_pending now sA id p (hA1.trans hrec) hst
    obtain ⟨hB1, hB2, _, hB4⟩ := expirySweepGo_ne now id l2 (expireOnePayment now sA id).1
      (outA ++ if (expireOnePayment now sA id).2 then [id] else []) hid2
    refine ⟨?_, ?_, ?_⟩
    · unfold statusOf at hE1 ⊢
      rw [hB1]
      exact hE1
    · intro hin
      exact hE2 (hB2.mp hin)
    · refine hB4.mpr ?_
      rw [hE3]
      simp
  · intro p hrec hst
    rw [expireOnePayment_self_nonpending now sA id p (hA1.trans hrec) hst]
    obtain ⟨hB1, hB2, _, hB4⟩ := expirySweepGo_ne now id l2 (zremExpiry sA id)
      (outA ++ if false then [id] else []) hid2
    refine ⟨?_, ?_⟩
    · rw [hB1]
      exact hA1.trans hrec
    · intro hin
      have := hB4.mp hin
      simp at this
      exact hAnot this

/-- C7 (witness): sweeping `sampleActiveLedger` at time 2000 (past the
score 1000 of payment 1) expires the pending payment 1, removes it from
the pending index, notifies its user and clears its expiry entry. -/
theorem c7_expiry_sweep_witness :
    (∀ sc', (1, sc') ∉ ((expirySweep 2000 sampleActiveLedger).1).expirySet) ∧
    statusOf (expirySweep 2000 sampleActiveLedger).1 1 = some .expired ∧
    1 ∉ ((expirySweep 2000 sampleActiveLedger).1).pendingSet ∧
    1 ∈ (expirySweep 2000 sampleActiveLedger).2 := by
  obtain ⟨h1, _, h3, _⟩ :=
    c7_expiry_sweep 2000 sampleActiveLedger 1 1000 (by decide) (by decide) (by decide)
      (by decide)
  exact ⟨h1, h3 samplePendingRec (by decide) rfl⟩

end BasalPay
